import Mathlib

/-!
Formal model of apgcheck, the NurOS APG package validator.

The development shallowly embeds the two core components of the Go
source (extractTarXz and the checkApgFile family) as executable Lean
functions and proves the frozen specification claims about them.
Paths are modelled as strings over the Unix separator, and the Go
standard-library path functions used by the source (filepath.Clean,
filepath.IsAbs, filepath.Join, filepath.Abs, filepath.Dir and the
strings package helpers) are translated to structurally recursive
functions on character lists so that every definition evaluates inside
the kernel.
-/

namespace Apgcheck

/-- UTF-8 byte size of one character, as counted by Go len() on strings. -/
def charUtf8Size (c : Char) : Nat :=
  if c.val < 0x80 then 1 else if c.val < 0x800 then 2
  else if c.val < 0x10000 then 3 else 4

/-- Byte length of a string: Go len(s). -/
def strByteLen (s : String) : Nat :=
  s.toList.foldl (fun n c => n + charUtf8Size c) 0

/-- Bool test that pat is a prefix of l; models Go strings.HasPrefix on
character lists. -/
def listStartsWith : List Char → List Char → Bool
  | _, [] => true
  | [], _ :: _ => false
  | c :: cs, p :: ps => c == p && listStartsWith cs ps

/-- Go strings.HasPrefix. -/
def strStartsWith (s pat : String) : Bool :=
  listStartsWith s.toList pat.toList

/-- Go strings.HasSuffix. -/
def strEndsWith (s pat : String) : Bool :=
  listStartsWith s.toList.reverse pat.toList.reverse

/-- Bool test that pat occurs as a contiguous sublist of l; models Go
strings.Contains on character lists. -/
def listHasInfix (pat : List Char) : List Char → Bool
  | [] => listStartsWith [] pat
  | c :: cs => listStartsWith (c :: cs) pat || listHasInfix pat cs

/-- Go strings.Contains. -/
def strContainsSub (s pat : String) : Bool :=
  listHasInfix pat.toList s.toList

/-- Go strings.ContainsAny(s, NUL): the string holds a NUL byte. -/
def strHasNull (s : String) : Bool :=
  s.toList.contains (Char.ofNat 0)

/-- Split a character list on a separator character; models Go
strings.Split. The result is always nonempty. -/
def splitOnChar (sep : Char) : List Char → List (List Char)
  | [] => [[]]
  | c :: cs =>
    if c = sep then [] :: splitOnChar sep cs
    else
      match splitOnChar sep cs with
      | r :: rs => (c :: r) :: rs
      | [] => [[c]]

/-- Go path.Clean, which is filepath.Clean for slash-separated (Unix)
paths: iteratively drop empty and dot components, cancel a dot-dot
component against a preceding normal component, drop dot-dot at the
root of an absolute path, and keep leading dot-dot components of a
relative path; an empty result becomes the single dot. -/
def filepathClean (p : String) : String :=
  if p == "" then "."
  else
    let rooted := strStartsWith p "/"
    let comps := (splitOnChar '/' p.toList).filter
      (fun c => !(c == []) && !(c == ['.']))
    let out := (comps.foldl (fun acc c =>
      if c == ['.', '.'] then
        match acc with
        | [] => if rooted then [] else [c]
        | d :: rest => if d == ['.', '.'] then c :: d :: rest else rest
      else c :: acc) []).reverse
    if rooted then String.mk ('/' :: List.intercalate ['/'] out)
    else if out == [] then "." else String.mk (List.intercalate ['/'] out)

/-- Go filepath.IsAbs on Unix: the path begins with the separator. -/
def filepathIsAbs (p : String) : Bool :=
  strStartsWith p "/"

/-- Go filepath.Join restricted to the two-element form used by the
source: empty elements are skipped and the slash-joined remainder is
cleaned; the join of two empty elements is empty. -/
def filepathJoin (a b : String) : String :=
  if a == "" && b == "" then ""
  else if a == "" then filepathClean b
  else if b == "" then filepathClean a
  else filepathClean (a ++ "/" ++ b)

/-- Go filepath.Abs with the working directory passed explicitly: an
absolute path is cleaned, a relative one is joined onto the working
directory. -/
def filepathAbs (cwd p : String) : String :=
  if filepathIsAbs p then filepathClean p else filepathJoin cwd p

/-- Go filepath.Dir: everything up to and including the final
separator, cleaned; a path without separator yields the single dot. -/
def filepathDir (p : String) : String :=
  filepathClean (String.mk ((p.toList.reverse.dropWhile (fun c => c != '/')).reverse))

/-- Tar entry type flags: the archive/tar values distinguished by
extractTarXz. -/
inductive TypeFlag
  | dir
  | reg
  | symlink
  | link
  | other (code : Nat)
deriving DecidableEq, Repr

/-- One tar header as consumed by extractTarXz: declared entry name,
type flag, declared size, permission bits and link target. -/
structure Header where
  name : String
  typeflag : TypeFlag
  size : Int
  mode : Int
  linkname : String
deriving DecidableEq, Repr

/-- The error cases of extractTarXz, one constructor per return site of
the per-entry loop in the source. -/
inductive ExtractError
  | absolutePath (name : String)
  | traversal (name : String)
  | outsideDest (name : String)
  | pathTooLong (name : String)
  | nullByte (name : String)
  | fileTooLarge (name : String) (size : Int)
  | linkNotAllowed (name : String)
deriving DecidableEq, Repr

/-- Filesystem effects performed by extractTarXz. -/
inductive FsAction
  | mkdirAll (path : String)
  | writeFile (path : String) (size : Int)
deriving DecidableEq, Repr

/-- The lexical traversal condition of extractTarXz on the cleaned
name: leading dot-dot component, inner dot-dot component, dot-dot
suffix, or the name being exactly dot-dot. -/
def traversalCond (cleanPath : String) : Bool :=
  strStartsWith cleanPath "../" || strContainsSub cleanPath "/../" ||
  strEndsWith cleanPath ".." || cleanPath == ".."

/-- The per-entry guard chain of extractTarXz in source order: clean
the name, reject absolute names, reject the lexical traversal
condition, join onto the absolute destination and reject when the
absolutized target is neither the destination nor under it, reject
names over 255 bytes, reject names holding a NUL byte. -/
def guardEntry (cwd absDest : String) (name : String) : Option ExtractError :=
  let cleanPath := filepathClean name
  if filepathIsAbs cleanPath then some (.absolutePath name)
  else if traversalCond cleanPath then some (.traversal name)
  else
    let target := filepathJoin absDest cleanPath
    let absTarget := filepathAbs cwd target
    if !(strStartsWith absTarget (absDest ++ "/")) && absTarget != absDest then
      some (.outsideDest name)
    else if 255 < strByteLen cleanPath then some (.pathTooLong name)
    else if strHasNull cleanPath then some (.nullByte name)
    else none

/-- Single-file size ceiling of extractTarXz: 500 MiB. -/
def maxFileSize : Int := 500 * 1024 * 1024

/-- The typeflag switch of extractTarXz: directories are created,
regular files are size-checked and then written below their created
parent, symbolic and hard links are rejected, and any other kind is
skipped with a warning. -/
def dispatchEntry (absDest : String) (h : Header) : Except ExtractError (List FsAction) :=
  let target := filepathJoin absDest (filepathClean h.name)
  match h.typeflag with
  | .dir => .ok [.mkdirAll target]
  | .reg =>
    if maxFileSize < h.size then .error (.fileTooLarge h.name h.size)
    else .ok [.mkdirAll (filepathDir target), .writeFile target h.size]
  | .symlink => .error (.linkNotAllowed h.name)
  | .link => .error (.linkNotAllowed h.name)
  | .other _ => .ok []

/-- Process one tar entry of extractTarXz: the guard chain followed by
the typeflag switch. -/
def processEntry (cwd absDest : String) (h : Header) : Except ExtractError (List FsAction) :=
  match guardEntry cwd absDest h.name with
  | some e => .error e
  | none => dispatchEntry absDest h

/-- The entry loop of extractTarXz over the decoded entry list: the
filesystem actions performed, paired with the first error if any; the
loop returns at the first failing entry, performing nothing for it or
for any later entry. -/
def runExtract (cwd absDest : String) : List Header → List FsAction × Option ExtractError
  | [] => ([], none)
  | h :: rest =>
    match processEntry cwd absDest h with
    | .error e => ([], some e)
    | .ok acts =>
      match runExtract cwd absDest rest with
      | (more, err) => (acts ++ more, err)

/-- extractTarXz on an already-opened and already-decoded archive,
with the working directory passed explicitly: the destination is
absolutized once and every entry is processed in stream order. -/
def extractTarXz (cwd dest : String) (entries : List Header) :
    List FsAction × Option ExtractError :=
  runExtract cwd (filepathAbs cwd dest) entries

/-- A dot-dot path segment occurs somewhere in the slash-split of the
string. -/
def hasDotDotSegment (s : String) : Bool :=
  (splitOnChar '/' s.toList).contains ['.', '.']

/-- Path-security classification of the extraction errors, following
the error-kind taxonomy of the specification: every guard and link
rejection is a path-security violation; only the size rejection is
not. -/
def ExtractError.isPathSecurity : ExtractError → Bool
  | .fileTooLarge _ _ => false
  | _ => true

/-- A JSON field value of the shapes that can appear in an apgcheck
metadata object: a string, a list of strings, or null. -/
inductive JsonField
  | str (s : String)
  | strList (xs : List String)
  | null
deriving DecidableEq, Repr

/-- A JSON object: an association list from key to field value; a key
not in the list is absent from the object. -/
abbrev JsonObj := List (String × JsonField)

/-- Key lookup in a JSON object. -/
def lookupField (o : JsonObj) (k : String) : Option JsonField :=
  match o.find? (fun p => p.1 == k) with
  | some p => some p.2
  | none => none

/-- Go encoding/json decode of a string struct field: an absent key, a
null, or a non-string value leaves the zero value, the empty string. -/
def decodeStr (o : JsonObj) (k : String) : String :=
  match lookupField o k with
  | some (.str s) => s
  | _ => ""

/-- Go encoding/json decode of a string-pointer struct field: absent
or null leaves the nil pointer. -/
def decodeOptStr (o : JsonObj) (k : String) : Option String :=
  match lookupField o k with
  | some (.str s) => some s
  | _ => none

/-- Go encoding/json decode of a string-slice struct field: an absent
key or a null leaves the nil slice, a present list (even empty) yields
that list; nil and the empty slice stay distinguished. -/
def decodeList (o : JsonObj) (k : String) : Option (List String) :=
  match lookupField o k with
  | some (.strList xs) => some xs
  | _ => none

/-- The v1 metadata record of the source (struct Metadata and struct
MetadataV1): scalar fields as strings, optional fields as string
pointers, list fields as nilable slices. -/
structure MetadataV1 where
  name : String
  version : String
  architecture : Option String
  description : String
  maintainer : String
  license : Option String
  homepage : String
  dependencies : Option (List String)
  conflicts : Option (List String)
  provides : Option (List String)
  replaces : Option (List String)
deriving DecidableEq, Repr

/-- The v2 metadata record of the source (struct MetadataV2): the v1
fields plus type, tags and conf. -/
structure MetadataV2 where
  name : String
  version : String
  type : String
  architecture : Option String
  description : String
  maintainer : String
  license : Option String
  tags : Option (List String)
  homepage : String
  dependencies : Option (List String)
  conflicts : Option (List String)
  provides : Option (List String)
  replaces : Option (List String)
  conf : Option (List String)
deriving DecidableEq, Repr

/-- json.Unmarshal of a metadata object into the v1 record. -/
def unmarshalV1 (o : JsonObj) : MetadataV1 where
  name := decodeStr o "name"
  version := decodeStr o "version"
  architecture := decodeOptStr o "architecture"
  description := decodeStr o "description"
  maintainer := decodeStr o "maintainer"
  license := decodeOptStr o "license"
  homepage := decodeStr o "homepage"
  dependencies := decodeList o "dependencies"
  conflicts := decodeList o "conflicts"
  provides := decodeList o "provides"
  replaces := decodeList o "replaces"

/-- json.Unmarshal of a metadata object into the v2 record. -/
def unmarshalV2 (o : JsonObj) : MetadataV2 where
  name := decodeStr o "name"
  version := decodeStr o "version"
  type := decodeStr o "type"
  architecture := decodeOptStr o "architecture"
  description := decodeStr o "description"
  maintainer := decodeStr o "maintainer"
  license := decodeOptStr o "license"
  tags := decodeList o "tags"
  homepage := decodeStr o "homepage"
  dependencies := decodeList o "dependencies"
  conflicts := decodeList o "conflicts"
  provides := decodeList o "provides"
  replaces := decodeList o "replaces"
  conf := decodeList o "conf"

/-- The missing-field accumulation of checkApgFile and checkApgFileV1,
in source order: a scalar field is missing when empty, a list field is
missing when nil. -/
def missingFieldsV1 (m : MetadataV1) : List String :=
  (if m.name = "" then ["name"] else []) ++
  (if m.version = "" then ["version"] else []) ++
  (if m.description = "" then ["description"] else []) ++
  (if m.maintainer = "" then ["maintainer"] else []) ++
  (if m.homepage = "" then ["homepage"] else []) ++
  (if m.dependencies = none then ["dependencies"] else []) ++
  (if m.conflicts = none then ["conflicts"] else []) ++
  (if m.provides = none then ["provides"] else []) ++
  (if m.replaces = none then ["replaces"] else [])

/-- The missing-field accumulation of checkApgFileV2, in source
order. -/
def missingFieldsV2 (m : MetadataV2) : List String :=
  (if m.name = "" then ["name"] else []) ++
  (if m.version = "" then ["version"] else []) ++
  (if m.type = "" then ["type"] else []) ++
  (if m.description = "" then ["description"] else []) ++
  (if m.maintainer = "" then ["maintainer"] else []) ++
  (if m.homepage = "" then ["homepage"] else []) ++
  (if m.tags = none then ["tags"] else []) ++
  (if m.dependencies = none then ["dependencies"] else []) ++
  (if m.conflicts = none then ["conflicts"] else []) ++
  (if m.provides = none then ["provides"] else []) ++
  (if m.replaces = none then ["replaces"] else []) ++
  (if m.conf = none then ["conf"] else [])

/-- State of the metadata.json file inside the extracted directory: a
readable well-formed object, readable but syntactically malformed
text, or an unreadable file. -/
inductive MetaFile
  | wellFormed (o : JsonObj)
  | malformed
  | unreadable
deriving Repr

/-- The extracted destination directory as seen by the validator: the
top-level entry names that exist, and the state of metadata.json. -/
structure PkgDir where
  entries : List String
  metadata : MetaFile

/-- Observable steps taken by the validator, recorded to state the
short-circuiting claims: a stat of one required entry, the read of
metadata.json, its parse, and the required-field schema check. -/
inductive CheckEvent
  | statEntry (name : String)
  | readMetadata
  | parseMetadata
  | schemaCheck
deriving DecidableEq, Repr

/-- The validator verdict: a structural error naming a missing
required entry, a metadata read failure, a metadata parse failure, a
schema error carrying the list of missing fields, or success. -/
inductive CheckResult
  | structuralError (name : String)
  | readError
  | parseError
  | schemaError (missing : List String)
  | good
deriving DecidableEq, Repr

/-- The three mandatory top-level entries, in the order the source
checks them. -/
def requiredEntries : List String := ["data", "md5sums", "metadata.json"]

/-- The mandatory-file loop of checkApgFile: stat each required entry
in order and return the first missing one, recording the stats
performed. -/
def statLoop (d : PkgDir) : List String → Option String × List CheckEvent
  | [] => (none, [])
  | n :: rest =>
    if d.entries.contains n then
      match statLoop d rest with
      | (r, evs) => (r, .statEntry n :: evs)
    else (some n, [.statEntry n])

/-- checkApgFileV1 (identical in phases to checkApgFile of the v0.1
source): stat the required entries, then read metadata.json, then
parse it, then collect every missing required field; each phase
returns immediately on failure, except that the field checks
accumulate all failures before returning one schema error. The event
log records the steps performed. -/
def checkApgFileV1 (d : PkgDir) : CheckResult × List CheckEvent :=
  match statLoop d requiredEntries with
  | (some n, evs) => (.structuralError n, evs)
  | (none, evs) =>
    match d.metadata with
    | .unreadable => (.readError, evs ++ [.readMetadata])
    | .malformed => (.parseError, evs ++ [.readMetadata, .parseMetadata])
    | .wellFormed o =>
      let missing := missingFieldsV1 (unmarshalV1 o)
      (if missing.isEmpty then .good else .schemaError missing,
       evs ++ [.readMetadata, .parseMetadata, .schemaCheck])

/-- checkApgFileV2: the same phases as checkApgFileV1 over the v2
record and required-field set. -/
def checkApgFileV2 (d : PkgDir) : CheckResult × List CheckEvent :=
  match statLoop d requiredEntries with
  | (some n, evs) => (.structuralError n, evs)
  | (none, evs) =>
    match d.metadata with
    | .unreadable => (.readError, evs ++ [.readMetadata])
    | .malformed => (.parseError, evs ++ [.readMetadata, .parseMetadata])
    | .wellFormed o =>
      let missing := missingFieldsV2 (unmarshalV2 o)
      (if missing.isEmpty then .good else .schemaError missing,
       evs ++ [.readMetadata, .parseMetadata, .schemaCheck])

/-- The format-version dispatch of main: version 2 selects
checkApgFileV2, every other selector value selects checkApgFileV1. -/
def checkApg (apgVersion : Int) (d : PkgDir) : CheckResult × List CheckEvent :=
  if apgVersion = 2 then checkApgFileV2 d else checkApgFileV1 d

/-- Follows the words of the specification, for comparison with the
source: canonicalization resolves symbolic-link path components. The
link table maps an absolute path to its target; the cleaned absolute
input is rebuilt component by component, and whenever the path built
so far is a link it is replaced by the link target. -/
def specCanonicalResolve (links : List (String × String)) (p : String) : String :=
  let comps := (splitOnChar '/' (filepathClean p).toList).filter (fun c => !(c == []))
  String.mk (comps.foldl (fun acc c =>
    let next := acc ++ '/' :: c
    match links.find? (fun l => l.1 == String.mk next) with
    | some l => l.2.toList
    | none => next) [])

/-- The canonical containment relation of the specification: the path
is the root itself or a strict descendant of it. -/
def isDescendantOrEqual (p root : String) : Bool :=
  p == root || strStartsWith p (root ++ "/")

example : filepathClean "a/../b" = "b" := by decide
example : filepathClean "../a" = "../a" := by decide
example : filepathClean "/.." = "/" := by decide
example : filepathClean "" = "." := by decide
example : filepathClean "notes.." = "notes.." := by decide
example : filepathClean "a//b/./c/" = "a/b/c" := by decide
example : filepathJoin "/d" "b" = "/d/b" := by decide
example : filepathDir "/d/s/x" = "/d/s" := by decide
example : filepathDir "a" = "." := by decide
example : filepathAbs "/" "/d" = "/d" := by decide
example : traversalCond "b" = false := by decide
example : traversalCond "dir/file.." = true := by decide

theorem listStartsWith_iff : ∀ (l p : List Char), listStartsWith l p = true ↔ p <+: l := by
  intro l
  induction l with
  | nil => intro p; cases p <;> simp [listStartsWith]
  | cons c cs ih =>
    intro p
    cases p with
    | nil => simp [listStartsWith]
    | cons q qs =>
      rw [show listStartsWith (c :: cs) (q :: qs) = (c == q && listStartsWith cs qs) from rfl]
      rw [Bool.and_eq_true, beq_iff_eq, ih, List.cons_prefix_cons]
      exact and_congr_left fun _ => eq_comm

theorem listHasInfix_iff : ∀ (l pat : List Char), listHasInfix pat l = true ↔ pat <:+: l := by
  intro l
  induction l with
  | nil =>
    intro pat
    cases pat <;> simp [listHasInfix, listStartsWith]
  | cons c cs ih =>
    intro pat
    simp [listHasInfix, listStartsWith_iff, ih, List.infix_cons_iff]

theorem splitOnChar_ne_nil (sep : Char) (cs : List Char) : splitOnChar sep cs ≠ [] := by
  cases cs with
  | nil => simp [splitOnChar]
  | cons c cs =>
    simp only [splitOnChar]
    split
    · simp
    · split <;> simp

theorem splitOnChar_head (sep : Char) :
    ∀ (cs : List Char) (r : List Char) (rs : List (List Char)),
      splitOnChar sep cs = r :: rs → (rs = [] ∧ cs = r) ∨ (r ++ [sep]) <+: cs := by
  intro cs
  induction cs with
  | nil =>
    intro r rs h
    simp only [splitOnChar] at h
    injection h with h1 h2
    exact Or.inl ⟨h2.symm, h1⟩
  | cons c cs ih =>
    intro r rs h
    simp only [splitOnChar] at h
    by_cases hc : c = sep
    · rw [if_pos hc] at h
      injection h with h1 h2
      subst h1
      right
      subst hc
      exact List.cons_prefix_cons.mpr ⟨rfl, List.nil_prefix⟩
    · rw [if_neg hc] at h
      cases hS : splitOnChar sep cs with
      | nil => exact absurd hS (splitOnChar_ne_nil sep cs)
      | cons r' rs' =>
        rw [hS] at h
        injection h with h1 h2
        subst h1
        subst h2
        rcases ih r' rs' hS with ⟨hnil, hcs⟩ | hpre
        · exact Or.inl ⟨hnil, by rw [hcs]⟩
        · exact Or.inr (List.cons_prefix_cons.mpr ⟨rfl, hpre⟩)

theorem splitOnChar_tail_mem (sep : Char) (x : List Char) :
    ∀ (cs : List Char) (r : List Char) (rs : List (List Char)),
      splitOnChar sep cs = r :: rs → x ∈ rs →
      (sep :: (x ++ [sep])) <:+: cs ∨ (sep :: x) <:+ cs := by
  intro cs
  induction cs with
  | nil =>
    intro r rs h hx
    simp only [splitOnChar] at h
    injection h with h1 h2
    rw [← h2] at hx
    simp at hx
  | cons c cs ih =>
    intro r rs h hx
    simp only [splitOnChar] at h
    by_cases hc : c = sep
    · rw [if_pos hc] at h
      injection h with h1 h2
      cases hS : splitOnChar sep cs with
      | nil => exact absurd hS (splitOnChar_ne_nil sep cs)
      | cons r' rs' =>
        rw [hS] at h2
        rw [← h2] at hx
        rcases List.mem_cons.mp hx with hxr | hxrs
        · subst hxr
          rcases splitOnChar_head sep cs x rs' hS with ⟨hnil, hcs⟩ | hpre
          · right
            subst hc
            subst hcs
            exact List.suffix_refl _
          · left
            subst hc
            exact (List.cons_prefix_cons.mpr ⟨rfl, hpre⟩).isInfix
        · rcases ih r' rs' hS hxrs with hinf | hsuf
          · exact Or.inl (hinf.trans ((List.suffix_cons c cs).isInfix))
          · exact Or.inr (hsuf.trans (List.suffix_cons c cs))
    · rw [if_neg hc] at h
      cases hS : splitOnChar sep cs with
      | nil => exact absurd hS (splitOnChar_ne_nil sep cs)
      | cons r' rs' =>
        rw [hS] at h
        injection h with h1 h2
        subst h2
        rcases ih r' rs' hS hx with hinf | hsuf
        · exact Or.inl (hinf.trans ((List.suffix_cons c cs).isInfix))
        · exact Or.inr (hsuf.trans (List.suffix_cons c cs))

theorem dotdot_segment_cases (cs : List Char)
    (h : ['.', '.'] ∈ splitOnChar '/' cs) :
    ['.', '.', '/'] <+: cs ∨ ['/', '.', '.', '/'] <:+: cs ∨ ['.', '.'] <:+ cs := by
  cases hS : splitOnChar '/' cs with
  | nil => exact absurd hS (splitOnChar_ne_nil '/' cs)
  | cons r rs =>
    rw [hS] at h
    rcases List.mem_cons.mp h with hr | hrs
    · rcases splitOnChar_head '/' cs r rs hS with ⟨hnil, hcs⟩ | hpre
      · right; right
        subst hcs
        rw [← hr]
      · left
        rw [← hr] at hpre
        simpa using hpre
    · rcases splitOnChar_tail_mem '/' ['.', '.'] cs r rs hS hrs with hinf | hsuf
      · right; left
        simpa using hinf
      · right; right
        exact (List.suffix_cons '/' ['.', '.']).trans hsuf

theorem traversalCond_of_dotdot (s : String) (hd : hasDotDotSegment s = true) :
    traversalCond s = true := by
  have h : ['.', '.'] ∈ splitOnChar '/' s.toList := by
    simpa [hasDotDotSegment] using hd
  rcases dotdot_segment_cases _ h with h1 | h2 | h3
  · have hb : strStartsWith s "../" = true := by
      rw [strStartsWith, listStartsWith_iff]
      rw [show "../".toList = ['.', '.', '/'] from rfl]
      exact h1
    simp [traversalCond, hb]
  · have hb : strContainsSub s "/../" = true := by
      rw [strContainsSub, listHasInfix_iff]
      rw [show "/../".toList = ['/', '.', '.', '/'] from rfl]
      exact h2
    simp [traversalCond, hb]
  · have hb : strEndsWith s ".." = true := by
      rw [strEndsWith, listStartsWith_iff, List.reverse_prefix]
      rw [show "..".toList = ['.', '.'] from rfl]
      exact h3
    simp [traversalCond, hb]

theorem guardEntry_isPathSecurity (cwd absDest name : String) (e : ExtractError)
    (hg : guardEntry cwd absDest name = some e) : e.isPathSecurity = true := by
  simp only [guardEntry] at hg
  split at hg
  · injection hg with h; subst h; rfl
  · split at hg
    · injection hg with h; subst h; rfl
    · split at hg
      · injection hg with h; subst h; rfl
      · split at hg
        · injection hg with h; subst h; rfl
        · split at hg
          · injection hg with h; subst h; rfl
          · simp at hg

theorem runExtract_cons_error (cwd absDest : String) (h : Header) (rest : List Header)
    (e : ExtractError) (hp : processEntry cwd absDest h = .error e) :
    runExtract cwd absDest (h :: rest) = ([], some e) := by
  simp [runExtract, hp]

/-- C1: the code does not canonicalize the joined target; its containment
check is purely lexical (filepath.Abs), so an entry whose lexically
contained path crosses a symlinked component and resolves outside the
root is accepted and written, where the specification demands
rejection. With a link table mapping the destination child s to an
outside directory, the entry s/x is extracted (a write at /d/s/x is
performed, no failure), although the canonical resolution of the
joined target lies outside the canonical destination root. -/
theorem extract_accepts_symlinked_component_escape :
    extractTarXz "/" "/d" [⟨"s/x", .reg, 0, 0, ""⟩] =
      ([.mkdirAll "/d/s", .writeFile "/d/s/x" 0], none) ∧
    specCanonicalResolve [("/d/s", "/evil")]
      (filepathJoin "/d" (filepathClean "s/x")) = "/evil/x" ∧
    isDescendantOrEqual
      (specCanonicalResolve [("/d/s", "/evil")]
        (filepathJoin "/d" (filepathClean "s/x"))) "/d" = false := by
  exact ⟨by decide, by decide, by decide⟩

/-- C2 counterexample: the entry name a/../b has a dot-dot segment in
an inner position, yet extract does not reject it: the lexical clean
cancels the segment and the entry is extracted as b, with a directory
created and the file written. -/
theorem inner_dotdot_name_extracted :
    hasDotDotSegment "a/../b" = true ∧
    extractTarXz "/" "/d" [⟨"a/../b", .reg, 0, 0, ""⟩] =
      ([.mkdirAll "/d", .writeFile "/d/b" 0], none) := by
  exact ⟨by decide, by decide⟩

/-- C2 amended: for every tar entry whose CLEANED name still contains a
dot-dot path segment (equivalently, whose dot-dot segments survive
lexical cleaning), extract rejects the archive with a path-traversal
(or, for absolute names, absolute-path) error and writes nothing for
that entry or for any subsequent entry. -/
theorem cleaned_dotdot_segment_rejected (cwd absDest : String) (h : Header)
    (rest : List Header)
    (hd : hasDotDotSegment (filepathClean h.name) = true) :
    ∃ e, runExtract cwd absDest (h :: rest) = ([], some e) ∧
      (e = ExtractError.absolutePath h.name ∨ e = ExtractError.traversal h.name) := by
  have ht := traversalCond_of_dotdot _ hd
  by_cases habs : filepathIsAbs (filepathClean h.name) = true
  · refine ⟨.absolutePath h.name, ?_, Or.inl rfl⟩
    apply runExtract_cons_error
    simp [processEntry, guardEntry, habs]
  · refine ⟨.traversal h.name, ?_, Or.inr rfl⟩
    apply runExtract_cons_error
    simp [processEntry, guardEntry, habs, ht]

/-- C2 amended witness: the entry ../x is rejected with the traversal
error and nothing is written for it or for a following entry. -/
theorem cleaned_dotdot_segment_rejected_witness :
    ∃ e, runExtract "/" "/d" [⟨"../x", .reg, 0, 0, ""⟩, ⟨"ok", .reg, 0, 0, ""⟩] =
        ([], some e) ∧
      (e = ExtractError.absolutePath "../x" ∨ e = ExtractError.traversal "../x") :=
  cleaned_dotdot_segment_rejected "/" "/d" ⟨"../x", .reg, 0, 0, ""⟩
    [⟨"ok", .reg, 0, 0, ""⟩] (by decide)

/-- C3: every tar entry of kind symbolic link or hard link is rejected
with a path-security failure, whatever its link target, and no
filesystem object is created for it or for any subsequent entry. -/
theorem link_entries_always_rejected (cwd absDest : String) (h : Header)
    (rest : List Header)
    (hl : h.typeflag = TypeFlag.symlink ∨ h.typeflag = TypeFlag.link) :
    ∃ e, runExtract cwd absDest (h :: rest) = ([], some e) ∧
      e.isPathSecurity = true := by
  cases hg : guardEntry cwd absDest h.name with
  | some e =>
    exact ⟨e, runExtract_cons_error cwd absDest h rest e (by simp [processEntry, hg]),
      guardEntry_isPathSecurity cwd absDest h.name e hg⟩
  | none =>
    refine ⟨.linkNotAllowed h.name, ?_, rfl⟩
    apply runExtract_cons_error
    rcases hl with hl | hl <;> simp [processEntry, hg, dispatchEntry, hl]

/-- C3 witness: a symlink entry pointing at /etc/passwd is rejected and
nothing is written. -/
theorem link_entries_always_rejected_witness :
    ∃ e, runExtract "/" "/d" [⟨"lnk", .symlink, 0, 0, "/etc/passwd"⟩] = ([], some e) ∧
      e.isPathSecurity = true :=
  link_entries_always_rejected "/" "/d" ⟨"lnk", .symlink, 0, 0, "/etc/passwd"⟩ []
    (Or.inl rfl)

/-- C10: every entry whose cleaned name ends with the two characters
dot-dot is rejected by the lexical guard, aborting the whole
extraction with nothing written for the entry or its successors; the
error is the traversal error, or the absolute-path error for an
absolute cleaned name. -/
theorem dotdot_suffix_rejected (cwd dest : String) (h : Header) (rest : List Header)
    (hs : strEndsWith (filepathClean h.name) ".." = true) :
    ∃ e, extractTarXz cwd dest (h :: rest) = ([], some e) ∧
      (if filepathIsAbs (filepathClean h.name) = true then e = ExtractError.absolutePath h.name
       else e = ExtractError.traversal h.name) := by
  by_cases habs : filepathIsAbs (filepathClean h.name) = true
  · refine ⟨.absolutePath h.name, ?_, by simp [habs]⟩
    apply runExtract_cons_error
    simp [processEntry, guardEntry, habs]
  · have ht : traversalCond (filepathClean h.name) = true := by
      simp [traversalCond, hs]
    refine ⟨.traversal h.name, ?_, by simp [habs]⟩
    apply runExtract_cons_error
    simp [processEntry, guardEntry, habs, ht]

/-- C10 witness: the relative entry dir/file.. whose final component
merely ends in dot-dot is rejected with the traversal error and the
extraction aborts. -/
theorem dotdot_suffix_rejected_witness :
    ∃ e, extractTarXz "/" "/d" [⟨"dir/file..", .reg, 0, 0, ""⟩, ⟨"ok", .reg, 0, 0, ""⟩] =
        ([], some e) ∧
      (if filepathIsAbs (filepathClean "dir/file..") = true
       then e = ExtractError.absolutePath "dir/file.."
       else e = ExtractError.traversal "dir/file..") :=
  dotdot_suffix_rejected "/" "/d" ⟨"dir/file..", .reg, 0, 0, ""⟩
    [⟨"ok", .reg, 0, 0, ""⟩] (by decide)

/-- C4: for a regular-file entry that passes the path guards, extract
rejects with the size-limit failure, writing nothing for the entry or
its successors, exactly when the declared size strictly exceeds
500 MiB; at or below the ceiling (so in particular at exactly
524288000 bytes) no size failure occurs and the entry proceeds to the
parent-directory creation and file write. -/
theorem size_guard_exact_threshold (cwd absDest : String) (h : Header)
    (rest : List Header) (hreg : h.typeflag = TypeFlag.reg)
    (hg : guardEntry cwd absDest h.name = none) :
    (runExtract cwd absDest (h :: rest) = ([], some (.fileTooLarge h.name h.size)) ↔
      maxFileSize < h.size) ∧
    (h.size ≤ maxFileSize →
      processEntry cwd absDest h =
        .ok [.mkdirAll (filepathDir (filepathJoin absDest (filepathClean h.name))),
             .writeFile (filepathJoin absDest (filepathClean h.name)) h.size]) := by
  have hok : h.size ≤ maxFileSize →
      processEntry cwd absDest h =
        .ok [.mkdirAll (filepathDir (filepathJoin absDest (filepathClean h.name))),
             .writeFile (filepathJoin absDest (filepathClean h.name)) h.size] := by
    intro hs
    simp [processEntry, hg, dispatchEntry, hreg, not_lt.mpr hs]
  refine ⟨⟨?_, ?_⟩, hok⟩
  · intro hr
    by_contra hlt
    push_neg at hlt
    rw [runExtract, hok hlt] at hr
    cases hrest : runExtract cwd absDest rest with
    | mk more err => simp [hrest] at hr
  · intro hs
    apply runExtract_cons_error
    simp [processEntry, hg, dispatchEntry, hreg, hs]

/-- C4 witness: a regular entry of exactly 500 MiB with a benign name
is not rejected by the size guard and proceeds to the write. -/
theorem size_guard_exact_threshold_witness :
    (runExtract "/" "/d" [⟨"f", .reg, 524288000, 0, ""⟩] =
        ([], some (.fileTooLarge "f" 524288000)) ↔ maxFileSize < (524288000 : Int)) ∧
    ((524288000 : Int) ≤ maxFileSize →
      processEntry "/" "/d" ⟨"f", .reg, 524288000, 0, ""⟩ =
        .ok [.mkdirAll (filepathDir (filepathJoin "/d" (filepathClean "f"))),
             .writeFile (filepathJoin "/d" (filepathClean "f")) 524288000]) :=
  size_guard_exact_threshold "/" "/d" ⟨"f", .reg, 524288000, 0, ""⟩ [] rfl (by decide)

set_option maxRecDepth 8000 in
/-- C8 counterexample: with destination the filesystem root, a
256-byte entry name fails both the 255-byte length bound and the
containment check; the failure extract returns is the containment
failure, not the length failure the claim predicts. -/
theorem long_name_gets_containment_failure :
    extractTarXz "/" "/" [⟨String.mk (List.replicate 256 'a'), .reg, 0, 0, ""⟩] =
      ([], some (.outsideDest (String.mk (List.replicate 256 'a')))) ∧
    255 < strByteLen (filepathClean (String.mk (List.replicate 256 'a'))) ∧
    ExtractError.outsideDest (String.mk (List.replicate 256 'a')) ≠
      ExtractError.pathTooLong (String.mk (List.replicate 256 'a')) := by
  refine ⟨by decide, by decide, by decide⟩

/-- C8 amended: the guards run in the order lexical traversal,
filesystem containment, length, NUL; consequently an entry that fails
both the containment check and the length bound is rejected with the
containment failure, not the length failure. -/
theorem containment_failure_returned_before_length (cwd absDest : String)
    (h : Header) (rest : List Header)
    (habs : filepathIsAbs (filepathClean h.name) = false)
    (htrav : traversalCond (filepathClean h.name) = false)
    (hpre : strStartsWith (filepathAbs cwd (filepathJoin absDest (filepathClean h.name)))
      (absDest ++ "/") = false)
    (hne : filepathAbs cwd (filepathJoin absDest (filepathClean h.name)) ≠ absDest)
    (_hlen : 255 < strByteLen (filepathClean h.name)) :
    runExtract cwd absDest (h :: rest) = ([], some (.outsideDest h.name)) := by
  apply runExtract_cons_error
  simp [processEntry, guardEntry, habs, htrav, hpre, hne]

set_option maxRecDepth 8000 in
/-- C8 amended witness: with destination the root and a 256-byte
name, all hypotheses hold concretely and the containment failure is
returned. -/
theorem containment_failure_returned_before_length_witness :
    runExtract "/" "/" [⟨String.mk (List.replicate 256 'a'), .reg, 0, 0, ""⟩] =
      ([], some (.outsideDest (String.mk (List.replicate 256 'a')))) :=
  containment_failure_returned_before_length "/" "/"
    ⟨String.mk (List.replicate 256 'a'), .reg, 0, 0, ""⟩ []
    (by decide) (by decide) (by decide) (by decide) (by decide)

theorem mem_ite_singleton {c : Prop} [Decidable c] {x f : String} {l : List String} :
    f ∈ (if c then [x] else []) ++ l ↔ (c ∧ f = x) ∨ f ∈ l := by
  split <;> simp_all

theorem mem_ite_singleton_nil {c : Prop} [Decidable c] {x f : String} :
    f ∈ (if c then [x] else ([] : List String)) ↔ c ∧ f = x := by
  split <;> simp_all

/-- C5: a list-typed required field is satisfied by an explicitly
empty list but not by an absent or null key: with all other v1 fields
populated, a metadata object without the dependencies key (or with it
null) makes validate at version 1 return the schema error listing
dependencies, while the same object with dependencies as an empty
list validates cleanly; in general the dependencies field is reported
missing exactly when it decoded to nil, and likewise for the v2 list
fields tags and conf. -/
theorem dependencies_absent_vs_empty :
    (checkApg 1 ⟨["data", "md5sums", "metadata.json"], .wellFormed
      [("name", .str "pkg"), ("version", .str "1.0"), ("description", .str "d"),
       ("maintainer", .str "m"), ("homepage", .str "h"),
       ("conflicts", .strList []), ("provides", .strList []),
       ("replaces", .strList [])]⟩).1 = .schemaError ["dependencies"] ∧
    (checkApg 1 ⟨["data", "md5sums", "metadata.json"], .wellFormed
      [("name", .str "pkg"), ("version", .str "1.0"), ("description", .str "d"),
       ("maintainer", .str "m"), ("homepage", .str "h"),
       ("dependencies", .null),
       ("conflicts", .strList []), ("provides", .strList []),
       ("replaces", .strList [])]⟩).1 = .schemaError ["dependencies"] ∧
    (checkApg 1 ⟨["data", "md5sums", "metadata.json"], .wellFormed
      [("name", .str "pkg"), ("version", .str "1.0"), ("description", .str "d"),
       ("maintainer", .str "m"), ("homepage", .str "h"),
       ("dependencies", .strList []),
       ("conflicts", .strList []), ("provides", .strList []),
       ("replaces", .strList [])]⟩).1 = .good ∧
    (∀ m : MetadataV1, "dependencies" ∈ missingFieldsV1 m ↔ m.dependencies = none) ∧
    (∀ m : MetadataV2, ("tags" ∈ missingFieldsV2 m ↔ m.tags = none) ∧
      ("conf" ∈ missingFieldsV2 m ↔ m.conf = none)) := by
  refine ⟨by decide, by decide, by decide, ?_, ?_⟩
  · intro m
    simp [missingFieldsV1, mem_ite_singleton, mem_ite_singleton_nil]
  · intro m
    constructor <;> simp [missingFieldsV2, mem_ite_singleton, mem_ite_singleton_nil]

/-- C6: on a directory whose required entries are all present and
whose metadata parses, the schema phase evaluates every required field
of the selected version and returns success or one schema error
carrying exactly the complete list of missing fields: membership in
the reported list is characterized field by field, with no
short-circuit at the first failure. -/
theorem schema_check_collects_all_missing (d : PkgDir) (o : JsonObj)
    (hm : d.metadata = MetaFile.wellFormed o)
    (h1 : d.entries.contains "data" = true)
    (h2 : d.entries.contains "md5sums" = true)
    (h3 : d.entries.contains "metadata.json" = true) :
    (((checkApgFileV1 d).1 = .good ∧ missingFieldsV1 (unmarshalV1 o) = []) ∨
      (checkApgFileV1 d).1 = .schemaError (missingFieldsV1 (unmarshalV1 o))) ∧
    (((checkApgFileV2 d).1 = .good ∧ missingFieldsV2 (unmarshalV2 o) = []) ∨
      (checkApgFileV2 d).1 = .schemaError (missingFieldsV2 (unmarshalV2 o))) ∧
    (∀ f, f ∈ missingFieldsV1 (unmarshalV1 o) ↔
      (((unmarshalV1 o).name = "" ∧ f = "name") ∨
       ((unmarshalV1 o).version = "" ∧ f = "version") ∨
       ((unmarshalV1 o).description = "" ∧ f = "description") ∨
       ((unmarshalV1 o).maintainer = "" ∧ f = "maintainer") ∨
       ((unmarshalV1 o).homepage = "" ∧ f = "homepage") ∨
       ((unmarshalV1 o).dependencies = none ∧ f = "dependencies") ∨
       ((unmarshalV1 o).conflicts = none ∧ f = "conflicts") ∨
       ((unmarshalV1 o).provides = none ∧ f = "provides") ∨
       ((unmarshalV1 o).replaces = none ∧ f = "replaces"))) ∧
    (∀ f, f ∈ missingFieldsV2 (unmarshalV2 o) ↔
      (((unmarshalV2 o).name = "" ∧ f = "name") ∨
       ((unmarshalV2 o).version = "" ∧ f = "version") ∨
       ((unmarshalV2 o).type = "" ∧ f = "type") ∨
       ((unmarshalV2 o).description = "" ∧ f = "description") ∨
       ((unmarshalV2 o).maintainer = "" ∧ f = "maintainer") ∨
       ((unmarshalV2 o).homepage = "" ∧ f = "homepage") ∨
       ((unmarshalV2 o).tags = none ∧ f = "tags") ∨
       ((unmarshalV2 o).dependencies = none ∧ f = "dependencies") ∨
       ((unmarshalV2 o).conflicts = none ∧ f = "conflicts") ∨
       ((unmarshalV2 o).provides = none ∧ f = "provides") ∨
       ((unmarshalV2 o).replaces = none ∧ f = "replaces") ∨
       ((unmarshalV2 o).conf = none ∧ f = "conf"))) := by
  have m1 : "data" ∈ d.entries := by simpa using h1
  have m2 : "md5sums" ∈ d.entries := by simpa using h2
  have m3 : "metadata.json" ∈ d.entries := by simpa using h3
  refine ⟨?_, ?_, ?_, ?_⟩
  · by_cases hmiss : (missingFieldsV1 (unmarshalV1 o)).isEmpty = true
    · exact Or.inl ⟨by simp [checkApgFileV1, statLoop, requiredEntries, m1, m2, m3, hm, hmiss],
        List.isEmpty_iff.mp hmiss⟩
    · exact Or.inr (by simp [checkApgFileV1, statLoop, requiredEntries, m1, m2, m3, hm, hmiss])
  · by_cases hmiss : (missingFieldsV2 (unmarshalV2 o)).isEmpty = true
    · exact Or.inl ⟨by simp [checkApgFileV2, statLoop, requiredEntries, m1, m2, m3, hm, hmiss],
        List.isEmpty_iff.mp hmiss⟩
    · exact Or.inr (by simp [checkApgFileV2, statLoop, requiredEntries, m1, m2, m3, hm, hmiss])
  · intro f
    simp [missingFieldsV1, mem_ite_singleton, mem_ite_singleton_nil]
  · intro f
    simp [missingFieldsV2, mem_ite_singleton, mem_ite_singleton_nil]

/-- C6 witness: on a present-entries directory whose metadata object
is empty, both versions report a schema error with the complete list
of their required fields. -/
theorem schema_check_collects_all_missing_witness :
    (((checkApgFileV1 ⟨["data", "md5sums", "metadata.json"], .wellFormed []⟩).1 = .good ∧
        missingFieldsV1 (unmarshalV1 []) = []) ∨
      (checkApgFileV1 ⟨["data", "md5sums", "metadata.json"], .wellFormed []⟩).1 =
        .schemaError (missingFieldsV1 (unmarshalV1 []))) ∧
    (((checkApgFileV2 ⟨["data", "md5sums", "metadata.json"], .wellFormed []⟩).1 = .good ∧
        missingFieldsV2 (unmarshalV2 []) = []) ∨
      (checkApgFileV2 ⟨["data", "md5sums", "metadata.json"], .wellFormed []⟩).1 =
        .schemaError (missingFieldsV2 (unmarshalV2 []))) ∧
    (∀ f, f ∈ missingFieldsV1 (unmarshalV1 []) ↔
      (((unmarshalV1 []).name = "" ∧ f = "name") ∨
       ((unmarshalV1 []).version = "" ∧ f = "version") ∨
       ((unmarshalV1 []).description = "" ∧ f = "description") ∨
       ((unmarshalV1 []).maintainer = "" ∧ f = "maintainer") ∨
       ((unmarshalV1 []).homepage = "" ∧ f = "homepage") ∨
       ((unmarshalV1 []).dependencies = none ∧ f = "dependencies") ∨
       ((unmarshalV1 []).conflicts = none ∧ f = "conflicts") ∨
       ((unmarshalV1 []).provides = none ∧ f = "provides") ∨
       ((unmarshalV1 []).replaces = none ∧ f = "replaces"))) ∧
    (∀ f, f ∈ missingFieldsV2 (unmarshalV2 []) ↔
      (((unmarshalV2 []).name = "" ∧ f = "name") ∨
       ((unmarshalV2 []).version = "" ∧ f = "version") ∨
       ((unmarshalV2 []).type = "" ∧ f = "type") ∨
       ((unmarshalV2 []).description = "" ∧ f = "description") ∨
       ((unmarshalV2 []).maintainer = "" ∧ f = "maintainer") ∨
       ((unmarshalV2 []).homepage = "" ∧ f = "homepage") ∨
       ((unmarshalV2 []).tags = none ∧ f = "tags") ∨
       ((unmarshalV2 []).dependencies = none ∧ f = "dependencies") ∨
       ((unmarshalV2 []).conflicts = none ∧ f = "conflicts") ∨
       ((unmarshalV2 []).provides = none ∧ f = "provides") ∨
       ((unmarshalV2 []).replaces = none ∧ f = "replaces") ∨
       ((unmarshalV2 []).conf = none ∧ f = "conf"))) :=
  schema_check_collects_all_missing ⟨["data", "md5sums", "metadata.json"], .wellFormed []⟩
    [] rfl (by decide) (by decide) (by decide)

/-- C7: the validator phases are ordered and short-circuiting for
every version selector: a missing mandatory entry yields a structural
error naming the first missing entry, with no metadata read, parse or
schema step performed; and a present but malformed metadata.json
yields the parse error with no schema step performed. -/
theorem validator_phases_short_circuit (v : Int) (d : PkgDir) :
    ((∃ n ∈ requiredEntries, d.entries.contains n = false) →
      ∃ n, n ∈ requiredEntries ∧ d.entries.contains n = false ∧
        (checkApg v d).1 = .structuralError n ∧
        CheckEvent.readMetadata ∉ (checkApg v d).2 ∧
        CheckEvent.parseMetadata ∉ (checkApg v d).2 ∧
        CheckEvent.schemaCheck ∉ (checkApg v d).2) ∧
    ((∀ n ∈ requiredEntries, d.entries.contains n = true) →
      d.metadata = MetaFile.malformed →
      (checkApg v d).1 = .parseError ∧
      CheckEvent.schemaCheck ∉ (checkApg v d).2) := by
  constructor
  · intro hex
    by_cases h1 : "data" ∈ d.entries
    · by_cases h2 : "md5sums" ∈ d.entries
      · by_cases h3 : "metadata.json" ∈ d.entries
        · exfalso
          rcases hex with ⟨n, hn, hc⟩
          simp [requiredEntries] at hn
          rcases hn with rfl | rfl | rfl <;> simp_all
        · refine ⟨"metadata.json", by simp [requiredEntries], by simpa using h3, ?_⟩
          by_cases hv : v = 2 <;>
            simp [checkApg, hv, checkApgFileV1, checkApgFileV2, statLoop,
              requiredEntries, h1, h2, h3]
      · refine ⟨"md5sums", by simp [requiredEntries], by simpa using h2, ?_⟩
        by_cases hv : v = 2 <;>
          simp [checkApg, hv, checkApgFileV1, checkApgFileV2, statLoop,
            requiredEntries, h1, h2]
    · refine ⟨"data", by simp [requiredEntries], by simpa using h1, ?_⟩
      by_cases hv : v = 2 <;>
        simp [checkApg, hv, checkApgFileV1, checkApgFileV2, statLoop,
          requiredEntries, h1]
  · intro hall hm
    have h1 : "data" ∈ d.entries := by simpa using hall "data" (by simp [requiredEntries])
    have h2 : "md5sums" ∈ d.entries := by
      simpa using hall "md5sums" (by simp [requiredEntries])
    have h3 : "metadata.json" ∈ d.entries := by
      simpa using hall "metadata.json" (by simp [requiredEntries])
    by_cases hv : v = 2 <;>
      simp [checkApg, hv, checkApgFileV1, checkApgFileV2, statLoop,
        requiredEntries, h1, h2, h3, hm]

/-- C7 witness: with metadata.json absent the structural error names
it and no metadata step runs; with all entries present but malformed
metadata the parse error is returned without a schema step. -/
theorem validator_phases_short_circuit_witness :
    (∃ n, n ∈ requiredEntries ∧
        (PkgDir.mk ["data", "md5sums"] .malformed).entries.contains n = false ∧
        (checkApg 1 ⟨["data", "md5sums"], .malformed⟩).1 = .structuralError n ∧
        CheckEvent.readMetadata ∉ (checkApg 1 ⟨["data", "md5sums"], .malformed⟩).2 ∧
        CheckEvent.parseMetadata ∉ (checkApg 1 ⟨["data", "md5sums"], .malformed⟩).2 ∧
        CheckEvent.schemaCheck ∉ (checkApg 1 ⟨["data", "md5sums"], .malformed⟩).2) ∧
    ((checkApg 1 ⟨["data", "md5sums", "metadata.json"], .malformed⟩).1 = .parseError ∧
      CheckEvent.schemaCheck ∉
        (checkApg 1 ⟨["data", "md5sums", "metadata.json"], .malformed⟩).2) :=
  ⟨(validator_phases_short_circuit 1 ⟨["data", "md5sums"], .malformed⟩).1
      ⟨"metadata.json", by decide, by decide⟩,
   (validator_phases_short_circuit 1 ⟨["data", "md5sums", "metadata.json"], .malformed⟩).2
      (by decide) rfl⟩

/-- C9: every format-version selector other than 2 validates exactly
as version 1, and the v1 required-field check can never report the
v2-only fields type, tags or conf. -/
theorem non_two_version_selects_v1 (v : Int) (d : PkgDir) (hv : v ≠ 2) :
    checkApg v d = checkApgFileV1 d ∧
    ∀ m : MetadataV1, "type" ∉ missingFieldsV1 m ∧ "tags" ∉ missingFieldsV1 m ∧
      "conf" ∉ missingFieldsV1 m := by
  refine ⟨by simp [checkApg, hv], ?_⟩
  intro m
  refine ⟨?_, ?_, ?_⟩ <;>
    simp [missingFieldsV1, mem_ite_singleton, mem_ite_singleton_nil]

/-- C9 witness: selectors 0, 3 and -1 all dispatch to the v1 check. -/
theorem non_two_version_selects_v1_witness :
    checkApg 0 ⟨[], .malformed⟩ = checkApgFileV1 ⟨[], .malformed⟩ ∧
    checkApg 3 ⟨[], .malformed⟩ = checkApgFileV1 ⟨[], .malformed⟩ ∧
    checkApg (-1) ⟨[], .malformed⟩ = checkApgFileV1 ⟨[], .malformed⟩ :=
  ⟨(non_two_version_selects_v1 0 ⟨[], .malformed⟩ (by decide)).1,
   (non_two_version_selects_v1 3 ⟨[], .malformed⟩ (by decide)).1,
   (non_two_version_selects_v1 (-1) ⟨[], .malformed⟩ (by decide)).1⟩

end Apgcheck
